import Mathlib

/-!
Verification of the configuration loader in `src/config/config.py`.

The two core algorithms are embedded shallowly:

* `Config.__set_property` — depth-controlled flattening of the parsed YAML
  tree into attribute bindings (`set_property` / `set_property_loop` below);
* `Config.__load_plugins` — recursive plugin-name resolution against the
  plugin registry (`load_plugins` / `loadEntries` / `loadValue` /
  `loadNames` below).

Python values occurring in these functions are modelled by the inductive
type `Node`: YAML scalars (string / number / boolean / null), sequences,
ordered mappings (Python dicts preserve insertion order), and loaded plugin
handles (the opaque objects returned by `plugin_sources.load_plugin`).

Effects are made explicit: the attribute namespace built by repeated
`setattr` calls is the ordered list of writes produced by flattening
(`namespaceOf` gives the final attribute value, i.e. the last write wins),
exceptions become `Option`/`Except` error components, the in-place mutation
of the plugin spec is modelled by returning the post-state of the tree even
when an error is raised, and the calls made into the plugin registry are
recorded as a trace of `RegCall` events.
-/

/-- A Python value as it occurs in the config tree: YAML scalars, sequences,
ordered mappings, and loaded plugin handles. -/
inductive Node where
  | str (s : String)
  | num (n : Int)
  | bool (b : Bool)
  | null
  | handle (s : String)
  | list (xs : List Node)
  | map (es : List (String × Node))

/-- Calls made into the plugin registry (`plugin_sources`):
`listPlugins` models `plugin_sources.list_plugins()` and `load s` models
`plugin_sources.load_plugin(s)`. -/
inductive RegCall where
  | listPlugins
  | load (s : String)
deriving DecidableEq

/-- Errors raised by `Config.__load_plugins`: `notFound n` models the
`ValueError('plugin: {} 未找到执行文件')` raised when a spec element `n` is
not among the registry names (the spec calls this `PluginNotFoundError`);
`attrErr` models the `AttributeError` raised by `plugins.items()` when the
spec is a truthy non-mapping. -/
inductive PErr where
  | notFound (n : Node)
  | attrErr

/-- The error raised by `Config.__set_property` when the document root is a
truthy non-mapping: `properties.items()` fails (the spec calls this
`MalformedConfigError`). -/
inductive FlatErr where
  | malformedConfig
deriving DecidableEq

/-- Python truthiness of a `Node`, as tested by `if plugins:` and by
`properties or {}`. -/
def truthy : Node → Bool
  | .null => false
  | .str s => !s.isEmpty
  | .num n => n != 0
  | .bool b => b
  | .handle _ => true
  | .list xs => !xs.isEmpty
  | .map es => !es.isEmpty

/-- Whether a `Node` is a mapping (`isinstance(value, dict)`). -/
def isMapN : Node → Bool
  | .map _ => true
  | _ => false

/-- Whether a `Node` matches one of the three `isinstance` branches of the
`Config.__load_plugins` loop (`list`, `str`, `dict`). -/
def isPluginContainer : Node → Bool
  | .str _ => true
  | .list _ => true
  | .map _ => true
  | _ => false

/-- Python `sys.maxsize` on a 64-bit build, the depth used for keys absent
from `fields_depth`. -/
def sysMaxsize : Nat := 2 ^ 63 - 1

/-- Lookup in the `fields_depth` dict (`self.fields_depth.get(full_name)`
guarded by `full_name in self.fields_depth`). -/
def fdLookup : List (String × Nat) → String → Option Nat
  | [], _ => none
  | (k, v) :: rest, name => if k = name then some v else fdLookup rest name

/-- The default depth map set in `Config.__init__`:
`self.fields_depth = {'plugins': 1}`. -/
def fields_depth : List (String × Nat) := [("plugins", 1)]

/-- The qualified path of line 74:
`full_name = prefix + name if prefix == '' else prefix + '_' + name`. -/
def qualify (pre name : String) : String :=
  if pre = "" then name else pre ++ "_" ++ name

mutual
/-- The body of one iteration of the `Config.__set_property` loop
(lines 76–81), for qualified path `full` and resolved depth `d`: if the
value is a dict and `depth > 1`, recurse into it with `depth - 1` (and bind
nothing at `full` itself); otherwise perform
`setattr(self, full_name, value)`, binding the value verbatim. -/
def set_property_step : Node → String → Nat → List (String × Nat) → List (String × Node)
  | .map sub, full, d, fd =>
      if d > 1 then set_property_loop sub full (some (d - 1)) fd
      else [(full, .map sub)]
  | value, full, _, _ => [(full, value)]

/-- The `for name, value in properties.items()` loop of
`Config.__set_property` (lines 73–81).  `depth` is the Python local: it
starts as the `depth` argument and, once resolved from `fields_depth` at
the first iteration where it is `None`, keeps that value for all later
iterations of the same call (the `if depth is None:` assignment only fires
while it is still `None`).  The result is the ordered list of
`setattr(self, full_name, value)` writes performed. -/
def set_property_loop : List (String × Node) → String → Option Nat → List (String × Nat) → List (String × Node)
  | [], _, _, _ => []
  | (name, value) :: rest, pre, depth, fd =>
      let full := qualify pre name
      let d : Nat :=
        match depth with
        | some d0 => d0
        | none =>
            match fdLookup fd full with
            | some d0 => d0
            | none => sysMaxsize
      set_property_step value full d fd ++ set_property_loop rest pre (some d) fd
end

/-- `Config.__set_property(properties)` as called on the document root by
`Config.__load_config` (prefix `''`, depth `None`): `properties or {}`
turns a falsy root into an empty dict (no writes); a truthy mapping is
walked by the loop; a truthy non-mapping raises on `properties.items()`. -/
def set_property (properties : Node) (fd : List (String × Nat)) : Except FlatErr (List (String × Node)) :=
  if truthy properties then
    match properties with
    | .map es => .ok (set_property_loop es "" none fd)
    | _ => .error .malformedConfig
  else .ok []

/-- The attribute namespace resulting from a list of `setattr` writes: the
value of attribute `k` is the last value written to it, if any. -/
def namespaceOf (ws : List (String × Node)) (k : String) : Option Node :=
  (ws.reverse.find? (fun p => p.1 == k)).map (fun p => p.2)

/-- The inner `for plugin in plus:` loop of `Config.__load_plugins`
(lines 142–146): each element must occur among the registry names
`all_plugins` (a non-string element never does, so it also raises), and is
then loaded.  Returns the built `plugin_objs` list, the error raised (if
any), and the trace of `load_plugin` calls made. -/
def loadNames : List Node → List String → List Node × Option PErr × List RegCall
  | [], _ => ([], none, [])
  | .str s :: xs, known =>
      if s ∈ known then
        let r := loadNames xs known
        (.handle s :: r.1, r.2.1, .load s :: r.2.2)
      else ([], some (.notFound (.str s)), [])
  | x :: _, _ => ([], some (.notFound x), [])

mutual
/-- Processing of one value `plus` of the plugin-spec mapping in
`Config.__load_plugins` (lines 141–154): a list is replaced by the loaded
handles only when the whole list succeeds (on error the binding keeps the
original list, since `plugins[parse_type] = plugin_objs` is never reached);
a string is membership-checked then loaded; a dict triggers the recursive
call `Config.__load_plugins(plus, plugin_sources)` (which calls
`list_plugins()` again and no-ops on a falsy dict); any other value matches
none of the three `isinstance` branches and is left untouched.  Returns the
post-state of the value, the error raised (if any), and the registry-call
trace. -/
def loadValue : Node → List String → Node × Option PErr × List RegCall
  | .list xs, known =>
      let r := loadNames xs known
      match r.2.1 with
      | some e => (.list xs, some e, r.2.2)
      | none => (.list r.1, none, r.2.2)
  | .str s, known =>
      if s ∈ known then (.handle s, none, [.load s])
      else (.str s, some (.notFound (.str s)), [])
  | .map es, known =>
      if es.isEmpty then (.map es, none, [.listPlugins])
      else
        let r := loadEntries es known
        (.map r.1, r.2.1, .listPlugins :: r.2.2)
  | v, _ => (v, none, [])

/-- The `for parse_type, plus in plugins.items():` loop of
`Config.__load_plugins` (lines 140–154) over the remaining entries.  The
spec dict is mutated in place, so when an entry raises, the earlier entries
keep their already-resolved values and the later entries are untouched; the
post-state of the whole entry list is returned alongside the error and the
registry-call trace. -/
def loadEntries : List (String × Node) → List String → List (String × Node) × Option PErr × List RegCall
  | [], _ => ([], none, [])
  | (k, v) :: rest, known =>
      let r := loadValue v known
      match r.2.1 with
      | some e => ((k, r.1) :: rest, some e, r.2.2)
      | none =>
        let r2 := loadEntries rest known
        ((k, r.1) :: r2.1, r2.2.1, r.2.2 ++ r2.2.2)
end

/-- `Config.__load_plugins(plugins, plugin_sources)` (lines 131–154):
`all_plugins = plugin_sources.list_plugins()` is called first,
unconditionally; then `if plugins:` makes a falsy spec a no-op; a truthy
mapping is walked entry by entry; a truthy non-mapping raises on
`plugins.items()`.  Returns the post-state of the spec, the error raised
(if any), and the trace of registry calls. -/
def load_plugins (plugins : Node) (known : List String) : Node × Option PErr × List RegCall :=
  if truthy plugins then
    match plugins with
    | .map es =>
        let r := loadEntries es known
        (.map r.1, r.2.1, .listPlugins :: r.2.2)
    | _ => (plugins, some .attrErr, [.listPlugins])
  else (plugins, none, [.listPlugins])

/-! ### Specification-side descriptions

The following definitions follow the wording of the specification (not the
source); the theorems below compare the embedded source functions against
them. -/

/-- Whether a sequence element passes the membership check
`plugin not in all_plugins`: only a string that occurs among the registry
names does. -/
def knownName (x : Node) (known : List String) : Bool :=
  match x with
  | .str s => decide (s ∈ known)
  | _ => false

mutual
/-- Spec-side: the first element of a plugin-spec value, in traversal
order, that fails the registry membership check — the name the spec says
resolution must abort on. -/
def firstMissingValue : Node → List String → Option Node
  | .str s, known => if s ∈ known then none else some (.str s)
  | .list xs, known => xs.find? (fun x => !(knownName x known))
  | .map es, known => firstMissingEntries es known
  | _, _ => none

/-- Spec-side: the first failing element across the entries of a
plugin-spec mapping, in entry order. -/
def firstMissingEntries : List (String × Node) → List String → Option Node
  | [], _ => none
  | (_, v) :: rest, known =>
      match firstMissingValue v known with
      | some m => some m
      | none => firstMissingEntries rest known
end

/-- Spec-side: the handle a sequence element is replaced by (a name string
becomes its loaded handle; resolution never reaches this on anything
else). -/
def resolveName : Node → Node
  | .str s => .handle s
  | x => x

/-- Spec-side: a sequence of names becomes the sequence of their handles,
in the same order. -/
def resolveNames (xs : List Node) : List Node := xs.map resolveName

mutual
/-- Spec-side: the expected result of resolving a plugin-spec value all of
whose names are known — leaf name strings become handles, container shape
is preserved, anything else is untouched. -/
def resolveValue : Node → Node
  | .str s => .handle s
  | .list xs => .list (resolveNames xs)
  | .map es => .map (resolveEntries es)
  | v => v

/-- Spec-side: entrywise resolution of a plugin-spec mapping, keeping every
key in place. -/
def resolveEntries : List (String × Node) → List (String × Node)
  | [] => []
  | (k, v) :: rest => (k, resolveValue v) :: resolveEntries rest
end

mutual
/-- Spec-side: every leaf name of a plugin-spec value is known to the
registry (and every sequence element is a name string). -/
def allKnownValue : Node → List String → Bool
  | .str s, known => decide (s ∈ known)
  | .list xs, known => xs.all (fun x => knownName x known)
  | .map es, known => allKnownEntries es known
  | _, _ => true

/-- Spec-side: `allKnownValue` across the entries of a plugin-spec
mapping. -/
def allKnownEntries : List (String × Node) → List String → Bool
  | [], _ => true
  | (_, v) :: rest, known => allKnownValue v known && allKnownEntries rest known
end

/-- Whether a registry-call trace contains a `load_plugin` call. -/
def hasLoadCall (tr : List RegCall) : Bool :=
  tr.any (fun c => match c with | .load _ => true | .listPlugins => false)

/-! ### Helper lemmas -/

/-- The error component of the inner name loop is the first element failing
the registry membership check, if any. -/
theorem loadNames_err (xs : List Node) (known : List String) :
    (loadNames xs known).2.1 = (xs.find? (fun x => !(knownName x known))).map PErr.notFound := by
  induction xs with
  | nil => rfl
  | cons x xs ih =>
    cases x with
    | str s =>
      by_cases h : s ∈ known
      · simp [loadNames, knownName, h, List.find?_cons, ih]
      · simp [loadNames, knownName, h, List.find?_cons]
    | num n => simp [loadNames, knownName, List.find?_cons]
    | bool b => simp [loadNames, knownName, List.find?_cons]
    | null => simp [loadNames, knownName, List.find?_cons]
    | handle s => simp [loadNames, knownName, List.find?_cons]
    | list ys => simp [loadNames, knownName, List.find?_cons]
    | map es => simp [loadNames, knownName, List.find?_cons]

/-- When every element of a name sequence passes the membership check, the
inner loop produces the handles in order and raises nothing. -/
theorem loadNames_ok (xs : List Node) (known : List String)
    (h : xs.all (fun x => knownName x known) = true) :
    (loadNames xs known).1 = resolveNames xs ∧ (loadNames xs known).2.1 = none := by
  induction xs with
  | nil => exact ⟨rfl, rfl⟩
  | cons x xs ih =>
    simp only [List.all_cons, Bool.and_eq_true] at h
    obtain ⟨h1, h2⟩ := h
    cases x with
    | str s =>
      simp only [knownName, decide_eq_true_eq] at h1
      obtain ⟨ih1, ih2⟩ := ih h2
      simp [loadNames, h1, resolveNames, resolveName, ih1, ih2]
    | num n => simp [knownName] at h1
    | bool b => simp [knownName] at h1
    | null => simp [knownName] at h1
    | handle s => simp [knownName] at h1
    | list ys => simp [knownName] at h1
    | map es => simp [knownName] at h1

/-- The error raised by plugin resolution is exactly the first element of
the spec, in traversal order, that fails the registry membership check. -/
theorem load_err_eq :
    (∀ v known, (loadValue v known).2.1 = (firstMissingValue v known).map PErr.notFound)
    ∧ (∀ es known, (loadEntries es known).2.1 = (firstMissingEntries es known).map PErr.notFound) := by
  refine loadValue.mutual_induct
    (fun v known => (loadValue v known).2.1 = (firstMissingValue v known).map PErr.notFound)
    (fun es known => (loadEntries es known).2.1 = (firstMissingEntries es known).map PErr.notFound)
    ?_ ?_ ?_ ?_ ?_ ?_ ?_ ?_ ?_ ?_
  · intro xs known r e h
    have h2 : (loadNames xs known).2.1 = some e := h
    simp only [loadValue, firstMissingValue, loadNames_err, h2] at h2 ⊢
    simp [h2]
  · intro xs known r h
    have h2 : (loadNames xs known).2.1 = none := h
    simp only [loadValue, firstMissingValue, loadNames_err, h2] at h2 ⊢
    simp [h2]
  · intro s known h
    simp [loadValue, firstMissingValue, h]
  · intro s known h
    simp [loadValue, firstMissingValue, h]
  · intro es known h
    rw [List.isEmpty_iff] at h
    subst h
    simp [loadValue, firstMissingValue, firstMissingEntries]
  · intro es known h ih
    simp [loadValue, firstMissingValue, h, ih]
  · intro v known h1 h2 h3
    cases v with
    | list xs => exact absurd rfl (h1 xs)
    | str s => exact absurd rfl (h2 s)
    | map es => exact absurd rfl (h3 es)
    | num n => simp [loadValue, firstMissingValue]
    | bool b => simp [loadValue, firstMissingValue]
    | null => simp [loadValue, firstMissingValue]
    | handle s => simp [loadValue, firstMissingValue]
  · intro known
    rfl
  · intro k v rest known r e h ih
    have h2 : (loadValue v known).2.1 = some e := h
    rw [h2] at ih
    simp only [loadEntries, firstMissingEntries, h2]
    cases hm : firstMissingValue v known with
    | none => rw [hm] at ih; simp at ih
    | some m => rw [hm] at ih; simp at ih; simp [ih]
  · intro k v rest known r h ih1 ih2
    have h2 : (loadValue v known).2.1 = none := h
    rw [h2] at ih1
    cases hm : firstMissingValue v known with
    | some m => rw [hm] at ih1; simp at ih1
    | none =>
      simp only [loadEntries, firstMissingEntries, h2, hm, ih2]

/-- When every leaf name of the spec is known to the registry, resolution
raises nothing and produces exactly the spec-side expected tree. -/
theorem load_ok_eq :
    (∀ v known, allKnownValue v known = true →
       (loadValue v known).1 = resolveValue v ∧ (loadValue v known).2.1 = none)
    ∧ (∀ es known, allKnownEntries es known = true →
       (loadEntries es known).1 = resolveEntries es ∧ (loadEntries es known).2.1 = none) := by
  refine loadValue.mutual_induct
    (fun v known => allKnownValue v known = true →
       (loadValue v known).1 = resolveValue v ∧ (loadValue v known).2.1 = none)
    (fun es known => allKnownEntries es known = true →
       (loadEntries es known).1 = resolveEntries es ∧ (loadEntries es known).2.1 = none)
    ?_ ?_ ?_ ?_ ?_ ?_ ?_ ?_ ?_ ?_
  · intro xs known r e h hk
    have h2 : (loadNames xs known).2.1 = some e := h
    simp only [allKnownValue] at hk
    have := (loadNames_ok xs known hk).2
    rw [this] at h2
    exact absurd h2 (by simp)
  · intro xs known r h hk
    have h2 : (loadNames xs known).2.1 = none := h
    simp only [allKnownValue] at hk
    obtain ⟨h3, _⟩ := loadNames_ok xs known hk
    simp [loadValue, resolveValue, h2, h3]
  · intro s known h _
    simp [loadValue, resolveValue, h]
  · intro s known h hk
    simp only [allKnownValue, decide_eq_true_eq] at hk
    exact absurd hk h
  · intro es known h _
    rw [List.isEmpty_iff] at h
    subst h
    simp [loadValue, resolveValue, resolveEntries]
  · intro es known h ih hk
    simp only [allKnownValue] at hk
    obtain ⟨ih1, ih2⟩ := ih hk
    simp [loadValue, resolveValue, h, ih1, ih2]
  · intro v known h1 h2 h3 _
    cases v with
    | list xs => exact absurd rfl (h1 xs)
    | str s => exact absurd rfl (h2 s)
    | map es => exact absurd rfl (h3 es)
    | num n => simp [loadValue, resolveValue]
    | bool b => simp [loadValue, resolveValue]
    | null => simp [loadValue, resolveValue]
    | handle s => simp [loadValue, resolveValue]
  · intro known _
    exact ⟨rfl, rfl⟩
  · intro k v rest known r e h ih hk
    simp only [allKnownEntries, Bool.and_eq_true] at hk
    have h2 : (loadValue v known).2.1 = some e := h
    rw [(ih hk.1).2] at h2
    exact absurd h2 (by simp)
  · intro k v rest known r h ih1 ih2 hk
    simp only [allKnownEntries, Bool.and_eq_true] at hk
    have h2 : (loadValue v known).2.1 = none := h
    obtain ⟨v1, _⟩ := ih1 hk.1
    obtain ⟨r1, r2⟩ := ih2 hk.2
    simp [loadEntries, resolveEntries, h2, v1, r1, r2]

/-- `load_err_eq` lifted to the `load_plugins` entry point on a mapping
spec. -/
theorem load_plugins_err (es : List (String × Node)) (known : List String) :
    (load_plugins (.map es) known).2.1 = (firstMissingEntries es known).map PErr.notFound := by
  cases es with
  | nil => rfl
  | cons e es => simpa [load_plugins, truthy] using load_err_eq.2 (e :: es) known

/-! ### Claim theorems -/

/-- C1 — evaluation at the failing input.  With the reference depth map
`fields_depth = [("plugins", 1)]` and document
`{plugins: {a: 1}, other: {x: {y: 2}}}`, the depth `1` resolved for the
first top-level key `plugins` carries over to its sibling `other`: `other`
is bound whole instead of being flattened to `other_x_y` (the fresh lookup
the claim requires would give unlimited depth for `other`).  This
contradicts the source's own comment on `fields_depth` (keys without a
configured depth are to be parsed to the deepest level). -/
theorem flatten_depth_carryover_failing_input :
    set_property
        (.map [("plugins", .map [("a", .num 1)]),
               ("other", .map [("x", .map [("y", .num 2)])])]) fields_depth
      = .ok [("plugins", .map [("a", .num 1)]),
             ("other", .map [("x", .map [("y", .num 2)])])]
    ∧ namespaceOf [("plugins", Node.map [("a", Node.num 1)]),
                   ("other", Node.map [("x", Node.map [("y", Node.num 2)])])] "other_x_y" = none
    ∧ namespaceOf [("plugins", Node.map [("a", Node.num 1)]),
                   ("other", Node.map [("x", Node.map [("y", Node.num 2)])])] "other"
        = some (Node.map [("x", Node.map [("y", Node.num 2)])]) :=
  ⟨rfl, rfl, rfl⟩

/-- C2 — flattening a node at resolved remaining depth `d`: a mapping value
with `d > 1` is recursed into under the extended path with depth `d - 1`
and the extended path itself is not bound; any other value (or `d ≤ 1`) is
bound verbatim at the extended path.  Moreover
`{a: {b: {c: 1}}}` under depth map `{a: 1}` flattens to exactly the one
binding `a ↦ {b: {c: 1}}` (no `a_b`, no `a_b_c`), and under `{a: 2}` to
exactly `a_b ↦ {c: 1}`. -/
theorem flatten_step_depth_cap :
    (∀ name sub rest pre d fd, d > 1 →
       set_property_loop ((name, Node.map sub) :: rest) pre (some d) fd =
         set_property_loop sub (qualify pre name) (some (d - 1)) fd
           ++ set_property_loop rest pre (some d) fd)
    ∧ (∀ name value rest pre d fd, isMapN value = false ∨ d ≤ 1 →
       set_property_loop ((name, value) :: rest) pre (some d) fd =
         (qualify pre name, value) :: set_property_loop rest pre (some d) fd)
    ∧ set_property (.map [("a", .map [("b", .map [("c", .num 1)])])]) [("a", 1)] =
        .ok [("a", .map [("b", .map [("c", .num 1)])])]
    ∧ namespaceOf [("a", Node.map [("b", Node.map [("c", Node.num 1)])])] "a_b" = none
    ∧ namespaceOf [("a", Node.map [("b", Node.map [("c", Node.num 1)])])] "a_b_c" = none
    ∧ set_property (.map [("a", .map [("b", .map [("c", .num 1)])])]) [("a", 2)] =
        .ok [("a_b", .map [("c", .num 1)])] := by
  refine ⟨?_, ?_, rfl, rfl, rfl, rfl⟩
  · intro name sub rest pre d fd h
    simp [set_property_loop, set_property_step, h]
  · intro name value rest pre d fd h
    rcases h with h | h
    · cases value <;> simp_all [set_property_loop, set_property_step, isMapN]
    · have hd : ¬ d > 1 := by omega
      cases value <;> simp [set_property_loop, set_property_step, hd]

/-- Witness for `flatten_step_depth_cap` at concrete inputs: one mapping
value recursed at depth 2, one scalar value bound verbatim at depth 1. -/
theorem flatten_step_depth_cap_witness :
    set_property_loop [("a", Node.map [("b", Node.num 1)])] "" (some 2) [] =
        set_property_loop [("b", Node.num 1)] "a" (some 1) []
          ++ set_property_loop [] "" (some 2) []
    ∧ set_property_loop [("z", Node.num 5)] "x" (some 1) [] =
        ("x_z", Node.num 5) :: set_property_loop [] "x" (some 1) [] :=
  ⟨flatten_step_depth_cap.1 "a" [("b", Node.num 1)] [] "" 2 [] (by decide),
   flatten_step_depth_cap.2.1 "z" (Node.num 5) [] "x" 1 [] (Or.inl rfl)⟩

/-- C3 — resolution of a mapping spec is fail-fast: its error is exactly
the first element, in traversal order, that fails the registry membership
check (so success means no name was silently skipped), and the spec's own
example `["p1", "missing"]` against a registry holding only `p1` aborts
identifying `missing`. -/
theorem resolve_fail_fast_first_missing :
    (∀ es known, (load_plugins (.map es) known).2.1
        = (firstMissingEntries es known).map PErr.notFound)
    ∧ (load_plugins (.map [("x", .list [.str "p1", .str "missing"])]) ["p1"]).2.1
        = some (PErr.notFound (.str "missing")) :=
  ⟨load_plugins_err, rfl⟩

/-- C4 — when every leaf name of a mapping spec is known to the registry,
resolution succeeds and returns exactly the spec-side expected tree
`resolveEntries es`, which keeps every mapping key in place and every
sequence length unchanged (leaf name strings become handles and nothing
else changes). -/
theorem resolve_shape_preservation :
    (∀ es known, allKnownEntries es known = true →
       ∃ tr, load_plugins (.map es) known = (.map (resolveEntries es), none, tr))
    ∧ (∀ es, (resolveEntries es).map Prod.fst = es.map Prod.fst)
    ∧ (∀ xs, (resolveNames xs).length = xs.length) := by
  refine ⟨?_, ?_, ?_⟩
  · intro es known hk
    cases es with
    | nil => exact ⟨[.listPlugins], rfl⟩
    | cons e es =>
      obtain ⟨h1, h2⟩ := load_ok_eq.2 (e :: es) known hk
      exact ⟨.listPlugins :: (loadEntries (e :: es) known).2.2, by
        simp [load_plugins, truthy, h1, h2]⟩
  · intro es
    induction es with
    | nil => rfl
    | cons e es ih => simp [resolveEntries, ih]
  · intro xs
    simp [resolveNames]

/-- Witness for `resolve_shape_preservation`: the sequence
`["p1", "p2", "p3"]` resolves to the three handles in the same order. -/
theorem resolve_shape_preservation_witness :
    ∃ tr, load_plugins (.map [("k", .list [.str "p1", .str "p2", .str "p3"])]) ["p1", "p2", "p3"]
      = (.map [("k", .list [.handle "p1", .handle "p2", .handle "p3"])], none, tr) :=
  resolve_shape_preservation.1 [("k", .list [.str "p1", .str "p2", .str "p3"])]
    ["p1", "p2", "p3"] rfl

/-- C5 — counterexample: flattening does *not* fail on every non-mapping
root.  A null root, an empty-sequence root and an empty-string root are all
falsy, so `properties or {}` silently turns them into an empty document and
flattening succeeds with an empty namespace instead of raising. -/
theorem flatten_falsy_root_no_error :
    set_property Node.null [("plugins", 1)] = Except.ok []
    ∧ set_property (Node.list []) [] = Except.ok []
    ∧ set_property (Node.str "") [] = Except.ok [] :=
  ⟨rfl, rfl, rfl⟩

/-- C5 amended — only a *truthy* non-mapping root fails flattening; a falsy
root (null, empty sequence, empty string, `0`, `false`) is treated as an
empty document and yields an empty namespace without error. -/
theorem flatten_nonmapping_root_amended :
    (∀ root fd, truthy root = true → isMapN root = false →
       set_property root fd = .error .malformedConfig)
    ∧ (∀ root fd, truthy root = false → set_property root fd = .ok []) := by
  constructor
  · intro root fd h1 h2
    cases root <;> simp_all [set_property, isMapN]
  · intro root fd h
    simp [set_property, h]

/-- Witness for `flatten_nonmapping_root_amended`: a non-empty sequence
root fails, a null root succeeds with an empty namespace. -/
theorem flatten_nonmapping_root_amended_witness :
    set_property (Node.list [Node.num 1]) [] = .error .malformedConfig
    ∧ set_property Node.null [] = .ok [] :=
  ⟨flatten_nonmapping_root_amended.1 (Node.list [Node.num 1]) [] rfl rfl,
   flatten_nonmapping_root_amended.2 Node.null [] rfl⟩

/-- C6 — counterexample: resolving an absent (`None`) plugin spec is *not*
free of registry calls: `plugin_sources.list_plugins()` is executed before
the `if plugins:` guard, so the registry's known-names listing is called
even for a null spec. -/
theorem empty_spec_lists_registry_names :
    (load_plugins Node.null ["p1"]).2.2 = [RegCall.listPlugins]
    ∧ [RegCall.listPlugins] ≠ ([] : List RegCall) :=
  ⟨rfl, by decide⟩

/-- C6 amended — resolving a falsy (empty or absent) plugin spec returns it
unchanged, raises nothing and makes no `load_plugin` call; the only
registry interaction is the one unconditional known-names listing. -/
theorem empty_spec_noop_amended :
    ∀ spec known, truthy spec = false →
      load_plugins spec known = (spec, none, [RegCall.listPlugins])
      ∧ hasLoadCall (load_plugins spec known).2.2 = false := by
  intro spec known h
  have he : load_plugins spec known = (spec, none, [RegCall.listPlugins]) := by
    simp [load_plugins, h]
  exact ⟨he, by rw [he]; rfl⟩

/-- Witness for `empty_spec_noop_amended` at the null spec. -/
theorem empty_spec_noop_amended_witness :
    load_plugins Node.null ["p1"] = (Node.null, none, [RegCall.listPlugins])
    ∧ hasLoadCall (load_plugins Node.null ["p1"]).2.2 = false :=
  empty_spec_noop_amended Node.null ["p1"] rfl

/-- C7 — counterexample: a bare plugin-name string at the root of the spec
is *not* processed as a single leaf.  `plugins.items()` raises on the
string before any membership check or load, leaving the spec unchanged,
even when the name is known to the registry. -/
theorem bare_string_spec_raises :
    load_plugins (Node.str "p1") ["p1"]
      = (Node.str "p1", some PErr.attrErr, [RegCall.listPlugins])
    ∧ Node.str "p1" ≠ Node.handle "p1"
    ∧ hasLoadCall (load_plugins (Node.str "p1") ["p1"]).2.2 = false :=
  ⟨rfl, by simp, rfl⟩

/-- C7 amended — a bare truthy non-mapping spec at the root (a name string
or a sequence of names not wrapped in a mapping) makes resolution fail on
the mapping iteration, with no name verified or loaded; only mapping specs
(or falsy ones) are accepted. -/
theorem bare_nonmapping_spec_amended :
    ∀ spec known, truthy spec = true → isMapN spec = false →
      load_plugins spec known = (spec, some PErr.attrErr, [RegCall.listPlugins]) := by
  intro spec known h1 h2
  cases spec <;> simp_all [load_plugins, isMapN]

/-- Witness for `bare_nonmapping_spec_amended`: a bare name sequence fails
resolution. -/
theorem bare_nonmapping_spec_amended_witness :
    load_plugins (Node.list [Node.str "p1"]) ["p1"]
      = (Node.list [Node.str "p1"], some PErr.attrErr, [RegCall.listPlugins]) :=
  bare_nonmapping_spec_amended (Node.list [Node.str "p1"]) ["p1"] rfl rfl

/-- C8 — two bindings to the same qualified path never raise: the namespace
value of a path is the last write to it in traversal order, and flattening
`{a: {b: 1}, a_b: 2}` writes `a_b ↦ 1` then `a_b ↦ 2` without error,
leaving `a_b` bound to `2`. -/
theorem flatten_last_write_wins :
    (∀ ws k v, namespaceOf (ws ++ [(k, v)]) k = some v)
    ∧ set_property (.map [("a", .map [("b", .num 1)]), ("a_b", .num 2)]) [] =
        .ok [("a_b", .num 1), ("a_b", .num 2)]
    ∧ namespaceOf [("a_b", Node.num 1), ("a_b", Node.num 2)] "a_b" = some (Node.num 2) := by
  refine ⟨?_, rfl, rfl⟩
  intro ws k v
  simp [namespaceOf]

/-- C9 — resolution is not atomic on failure: for the spec
`{a: "p1", b: "missing"}` against a registry holding only `p1`, the pass
raises on `missing` *after* the entry `a` has already been replaced in
place by the loaded handle, leaving a partially resolved spec observable
(the post-state differs from the original spec). -/
theorem resolve_failure_partial_mutation :
    load_plugins (.map [("a", .str "p1"), ("b", .str "missing")]) ["p1"]
      = (.map [("a", .handle "p1"), ("b", .str "missing")],
         some (PErr.notFound (.str "missing")),
         [RegCall.listPlugins, RegCall.load "p1"])
    ∧ Node.map [("a", Node.handle "p1"), ("b", Node.str "missing")]
        ≠ Node.map [("a", Node.str "p1"), ("b", Node.str "missing")] :=
  ⟨rfl, by simp⟩

/-- C10 — a spec value that is neither a string, a sequence nor a mapping
matches none of the three `isinstance` branches: it is left unchanged, no
registry load is performed for it, and no error is raised; a mapping spec
of such values resolves to itself with only the known-names listing in the
trace. -/
theorem non_container_value_untouched :
    (∀ v known, isPluginContainer v = false → loadValue v known = (v, none, []))
    ∧ load_plugins (.map [("x", .num 3), ("y", .bool true), ("z", .null)]) []
        = (.map [("x", .num 3), ("y", .bool true), ("z", .null)], none, [RegCall.listPlugins]) := by
  refine ⟨?_, rfl⟩
  intro v known h
  cases v <;> simp_all [loadValue, isPluginContainer]

/-- Witness for `non_container_value_untouched` at a number value. -/
theorem non_container_value_untouched_witness :
    loadValue (Node.num 3) ["p1"] = (Node.num 3, none, []) :=
  non_container_value_untouched.1 (Node.num 3) ["p1"] rfl
